import Mathlib

/-!
Shallow embedding of the RAGE-MP inventory API (`src/index.js`).

The module has two parts:
* `InventoryScript` — the process-wide item registry (`addItem`, `hasItem`,
  `getItem`, `getItemName`, `getItemDescription`), modelled as an association
  list from keys to definitions (JS objects keep string-key insertion order).
* `Player.*` — the per-player inventory methods installed on
  `mp.Player.prototype`, modelled as functions on the player's stack list.
  Each mutating operation returns the new inventory, the list of events
  emitted by the call (in order), and its boolean/object result.

JS values that the code inspects dynamically are modelled explicitly:
* `JSData` — structured per-stack `data` payloads; `lodash.isequal`'s deep
  structural equality becomes decidable equality (JS `undefined` is `.undef`).
* `JSVal` — arguments whose `typeof` the code checks (`addItem` inputs).
* numeric arguments go through `Rat`, so that `Number.isInteger(x)`
  (`x.den = 1`) and range checks are modelled faithfully; stored stack
  amounts are integers (`Int`), as every write to them is.
* `JSArg` — the `setInventory` argument, which may fail `Array.isArray`.
* optional hook fields (`onUse`, `nameFunc`, `descFunc`) are `Option`s of
  function types; the code only ever checks `typeof f === "function"`,
  so any non-function value behaves exactly like `undefined` (`none`).
  An `onUse` hook receives the player and may mutate the inventory
  (e.g. call `removeItem`), so it is a state transformer on the stack list.
-/

/-- Structured JS payloads carried in a stack's `data` field, compared with
`lodash.isequal` deep structural equality (decidable equality here). -/
inductive JSData where
  | undef
  | num (n : Int)
  | str (s : String)
  | boolean (b : Bool)
  | pair (fst snd : JSData)
deriving DecidableEq, Repr

/-- Dynamically-typed JS arguments whose `typeof` the source inspects. -/
inductive JSVal where
  | str (s : String)
  | num (q : Rat)
  | undef
  | boolean (b : Bool)
deriving DecidableEq, Repr

/-- One inventory stack: `{ key, amount, data }`. -/
structure Stack where
  key : String
  amount : Int
  data : JSData
deriving DecidableEq, Repr

/-- An `onUse` hook: receives (player id, item index, key, data) and may
mutate the player's inventory, so it transforms the stack list. -/
abbrev Hook : Type := Nat → Int → String → JSData → List Stack → List Stack

/-- A registered item definition (the object stored in `_items[key]`). -/
structure ItemDef where
  name : String
  description : String
  onUse : Option Hook
  nameFunc : Option (JSData → String)
  descFunc : Option (JSData → String)

/-- The registry `_items`, keyed by item identifier, insertion-ordered. -/
abbrev Registry : Type := List (String × ItemDef)

/-- Events emitted on the `inventoryScript` EventEmitter, with payloads in
source order (the player argument is a player id here). -/
inductive Event where
  | itemDefined (key name description : String)
  | itemAdded (actor : Nat) (key : String) (amount : Int) (data : JSData)
  | itemUsed (actor : Nat) (index : Int) (key : String) (data : JSData)
  | itemRemoved (actor : Nat) (index : Int) (key : String) (amount : Int) (data : JSData)
  | itemRemovedCompletely (actor : Nat) (key : String) (data : JSData)
  | inventoryReplaced (actor : Nat) (oldInv newInv : List Stack)
deriving DecidableEq, Repr

/-- A JS argument tested with `Array.isArray`. -/
inductive JSArg (α : Type) where
  | arr (xs : List α)
  | notArray
deriving DecidableEq, Repr

namespace InventoryScript

/-- `InventoryScript.hasItem`: `this._items.hasOwnProperty(key)`. -/
def hasItem (reg : Registry) (key : String) : Bool :=
  (reg.lookup key).isSome

/-- `InventoryScript.getItem`: `this._items[key]` (`undefined` ↦ `none`). -/
def getItem (reg : Registry) (key : String) : Option ItemDef :=
  reg.lookup key

/-- `InventoryScript.getAllItems`: `Object.keys(this._items)` (insertion order). -/
def getAllItems (reg : Registry) : List String :=
  reg.map (fun kv => kv.1)

/-- `InventoryScript.addItem`: validates key/name/description, rejects
duplicates, stores the definition and emits `itemDefined`. Returns the new
registry, the emitted events, and the JS return value (`null` ↦ `none`). -/
def addItem (reg : Registry) (key name description : JSVal)
    (onUse : Option Hook) (nameFunc descFunc : Option (JSData → String)) :
    Registry × List Event × Option ItemDef :=
  match key with
  | .str k =>
    if k.length < 1 then (reg, [], none)
    else
      match name with
      | .str n =>
        if n.length < 1 then (reg, [], none)
        else
          match description with
          | .str d =>
            if (reg.lookup k).isSome then (reg, [], none)
            else
              let itemDef : ItemDef :=
                { name := n, description := d,
                  onUse := onUse, nameFunc := nameFunc, descFunc := descFunc }
              (reg ++ [(k, itemDef)], [.itemDefined k n d], some itemDef)
          | _ => (reg, [], none)
      | _ => (reg, [], none)
  | _ => (reg, [], none)

/-- The conjunction of `addItem`'s validation checks, in source order:
key is a non-empty string, name is a non-empty string, description is a
string, and the key is not yet registered. -/
def addItemValid (reg : Registry) (key name description : JSVal) : Bool :=
  match key, name, description with
  | .str k, .str n, .str _ =>
    !(k.length < 1) && !(n.length < 1) && !(reg.lookup k).isSome
  | _, _, _ => false

/-- `InventoryScript.getItemName`: dynamic name via `nameFunc` when present,
else the static name; `"Invalid Item"` for unregistered keys. -/
def getItemName (reg : Registry) (key : String) (data : JSData) : String :=
  match reg.lookup key with
  | some itemDef =>
    match itemDef.nameFunc with
    | some f => f data
    | none => itemDef.name
  | none => "Invalid Item"

/-- `InventoryScript.getItemDescription`: dynamic description via `descFunc`
when present, else the static description; `""` for unregistered keys. -/
def getItemDescription (reg : Registry) (key : String) (data : JSData) : String :=
  match reg.lookup key with
  | some itemDef =>
    match itemDef.descFunc with
    | some f => f data
    | none => itemDef.description
  | none => ""

end InventoryScript

namespace Player

/-- `mp.Player.prototype.setInventory`: wholesale swap when the argument is
an array, emitting `inventoryReplaced(this, old, new)`; otherwise `false`. -/
def setInventory (actor : Nat) (inv : List Stack) (newInventory : JSArg Stack) :
    List Stack × List Event × Bool :=
  match newInventory with
  | .arr xs => (xs, [.inventoryReplaced actor inv xs], true)
  | .notArray => (inv, [], false)

/-- `mp.Player.prototype.hasItem`: any stack with the key, data-agnostic. -/
def hasItem (inv : List Stack) (itemKey : String) : Bool :=
  (inv.findIdx? (fun i => i.key == itemKey)).isSome

/-- `mp.Player.prototype.hasItemWithData`. -/
def hasItemWithData (inv : List Stack) (itemKey : String) (data : JSData) : Bool :=
  (inv.findIdx? (fun i => i.key == itemKey && i.data == data)).isSome

/-- `mp.Player.prototype.getItemIndex`: `findIndex` result, `-1` if absent. -/
def getItemIndex (inv : List Stack) (itemKey : String) : Int :=
  match inv.findIdx? (fun i => i.key == itemKey) with
  | some i => (i : Int)
  | none => -1

/-- `mp.Player.prototype.getItemIndexWithData`: first index whose stack
matches the key and is `isEqual` on data, `-1` if none. -/
def getItemIndexWithData (inv : List Stack) (itemKey : String) (data : JSData) : Int :=
  match inv.findIdx? (fun i => i.key == itemKey && i.data == data) with
  | some i => (i : Int)
  | none => -1

/-- `mp.Player.prototype.getItemAmount`: reduce summing matching amounts. -/
def getItemAmount (inv : List Stack) (itemKey : String) : Int :=
  inv.foldl (fun total item => total + (if item.key == itemKey then item.amount else 0)) 0

/-- `mp.Player.prototype.getItemAmountWithData`. -/
def getItemAmountWithData (inv : List Stack) (itemKey : String) (data : JSData) : Int :=
  inv.foldl
    (fun total item =>
      total + (if item.key == itemKey && item.data == data then item.amount else 0)) 0

/-- `mp.Player.prototype.getTotalItemAmount`: sum of all stack amounts. -/
def getTotalItemAmount (inv : List Stack) : Int :=
  inv.foldl (fun total item => total + item.amount) 0

/-- `this._inventory[i].amount += a` (in-place update of one element). -/
def bumpAmountAt (inv : List Stack) (i : Nat) (a : Int) : List Stack :=
  match inv[i]? with
  | some s => inv.set i { s with amount := s.amount + a }
  | none => inv

/-- `mp.Player.prototype.giveItem`: requires a registered key and a positive
integer amount; merges into the first stack with equal key and `isEqual`
data, else appends `{key, amount, data}`; emits `itemAdded`. -/
def giveItem (reg : Registry) (actor : Nat) (inv : List Stack)
    (itemKey : String) (amount : Rat) (data : JSData) :
    List Stack × List Event × Bool :=
  if InventoryScript.hasItem reg itemKey ∧ amount.den = 1 ∧ 0 < amount then
    let itemIdx := getItemIndexWithData inv itemKey data
    let inv' :=
      if itemIdx ≠ -1 then bumpAmountAt inv itemIdx.toNat amount.num
      else inv ++ [{ key := itemKey, amount := amount.num, data := data }]
    (inv', [.itemAdded actor itemKey amount.num data], true)
  else (inv, [], false)

/-- `mp.Player.prototype.useItem`: for an integer index holding a stack,
invokes the definition's `onUse` hook when the definition exists and the
hook is a function, then emits `itemUsed`; otherwise returns false. -/
def useItem (reg : Registry) (actor : Nat) (inv : List Stack) (itemIdx : Rat) :
    List Stack × List Event × Bool :=
  if h : itemIdx.den = 1 ∧ 0 ≤ itemIdx.num ∧ itemIdx.num.toNat < inv.length then
    let item := inv.get ⟨itemIdx.num.toNat, h.2.2⟩
    let inv' :=
      match (InventoryScript.getItem reg item.key).bind (fun d => d.onUse) with
      | some hook => hook actor itemIdx.num item.key item.data inv
      | none => inv
    (inv', [.itemUsed actor itemIdx.num item.key item.data], true)
  else (inv, [], false)

/-- `mp.Player.prototype.removeItem`: for an integer index holding a stack
and a positive integer amount, decrements the stack's amount, emits
`itemRemoved`, and when the result drops below 1 splices the stack out and
emits `itemRemovedCompletely`; otherwise returns false. -/
def removeItem (actor : Nat) (inv : List Stack) (itemIdx : Rat) (amount : Rat) :
    List Stack × List Event × Bool :=
  if h : itemIdx.den = 1 ∧ 0 ≤ itemIdx.num ∧ itemIdx.num.toNat < inv.length
      ∧ amount.den = 1 ∧ 0 < amount then
    let i := itemIdx.num.toNat
    let item := inv.get ⟨i, h.2.2.1⟩
    let inv1 := bumpAmountAt inv i (-amount.num)
    if item.amount - amount.num < 1 then
      (inv1.eraseIdx i,
       [.itemRemoved actor itemIdx.num item.key amount.num item.data,
        .itemRemovedCompletely actor item.key item.data], true)
    else
      (inv1, [.itemRemoved actor itemIdx.num item.key amount.num item.data], true)
  else (inv, [], false)

end Player

/-! ### Reachability and invariants -/

/-- One public mutating inventory operation, with its JS arguments. -/
inductive Op where
  | give (key : String) (amount : Rat) (data : JSData)
  | useAt (idx : Rat)
  | removeAt (idx : Rat) (amount : Rat)
  | replace (arg : JSArg Stack)
deriving DecidableEq

/-- Run one public operation, keeping only the resulting inventory. -/
def runOp (reg : Registry) (actor : Nat) (inv : List Stack) : Op → List Stack
  | .give key amount data => (Player.giveItem reg actor inv key amount data).1
  | .useAt idx => (Player.useItem reg actor inv idx).1
  | .removeAt idx amount => (Player.removeItem actor inv idx amount).1
  | .replace arg => (Player.setInventory actor inv arg).1

/-- Run a sequence of public operations from a starting inventory. -/
def runOps (reg : Registry) (actor : Nat) : List Op → List Stack → List Stack
  | [], inv => inv
  | op :: rest, inv => runOps reg actor rest (runOp reg actor inv op)

/-- Every stack present holds a positive amount (the spec's stack invariant). -/
def goodInv (inv : List Stack) : Prop :=
  ∀ s ∈ inv, 1 ≤ s.amount

instance : DecidablePred goodInv :=
  fun inv => decidable_of_iff (∀ s ∈ inv, 1 ≤ s.amount) Iff.rfl

/-- Every `onUse` hook stored in the registry preserves the positive-amount
invariant of the inventory it mutates. -/
def hooksPreserveGood (reg : Registry) : Prop :=
  ∀ kv ∈ reg, ∀ hook, kv.2.onUse = some hook →
    ∀ actor idx key data inv, goodInv inv → goodInv (hook actor idx key data inv)

/-- Every `replaceInventory` argument appearing in the operation sequence
itself satisfies the positive-amount invariant. -/
def replacementsGood (ops : List Op) : Prop :=
  ∀ op ∈ ops, ∀ xs, op = Op.replace (JSArg.arr xs) → goodInv xs

/-- The (key, data) identity of a stack, which `give` matches on. -/
def stackId (s : Stack) : String × JSData :=
  (s.key, s.data)

/-- No two stacks of the inventory share both key and (structurally equal)
data. -/
def noDupStacks (inv : List Stack) : Prop :=
  (inv.map stackId).Nodup

instance : DecidablePred noDupStacks :=
  fun inv => List.nodupDecidable (inv.map stackId)

/-! ### Concrete sample values used by the closed witness theorems -/

/-- A hook-free item definition, as in the spec's concrete scenario. -/
def medkitDef : ItemDef :=
  { name := "Medkit", description := "Heals 10 HP",
    onUse := none, nameFunc := none, descFunc := none }

/-- A definition with dynamic name and description formatters. -/
def badgeDef : ItemDef :=
  { name := "Badge", description := "An engraved badge",
    onUse := none,
    nameFunc := some (fun d => match d with
      | .str s => s ++ " Badge"
      | _ => "Plain Badge"),
    descFunc := some (fun _ => "Engraved") }

/-- A sample registry holding the two sample definitions. -/
def demoReg : Registry :=
  [("item_medkit", medkitDef), ("item_badge", badgeDef)]

/-- A sample inventory with two distinct (key, data) stacks. -/
def demoInv : List Stack :=
  [{ key := "item_medkit", amount := 2, data := JSData.undef },
   { key := "item_badge", amount := 1, data := JSData.str "Gold" }]

/-- A sample operation sequence exercising give, use, remove and replace. -/
def demoOps : List Op :=
  [Op.give "item_medkit" 2 JSData.undef,
   Op.useAt 0,
   Op.removeAt 0 1,
   Op.replace (JSArg.arr demoInv)]

/-! ### Helper lemmas -/

theorem foldl_add_eq_sum (f : Stack → Int) (l : List Stack) (init : Int) :
    l.foldl (fun t s => t + f s) init = init + (l.map f).sum := by
  induction l generalizing init with
  | nil => simp
  | cons s l ih =>
    rw [List.foldl_cons, ih, List.map_cons, List.sum_cons]
    ring

theorem getItemAmountWithData_eq_sum (inv : List Stack) (k : String) (d : JSData) :
    Player.getItemAmountWithData inv k d
      = (inv.map (fun s => if s.key == k && s.data == d then s.amount else 0)).sum := by
  unfold Player.getItemAmountWithData
  rw [foldl_add_eq_sum (fun s => if s.key == k && s.data == d then s.amount else 0) inv 0,
    zero_add]

theorem getTotalItemAmount_eq_sum (inv : List Stack) :
    Player.getTotalItemAmount inv = (inv.map (fun s => s.amount)).sum := by
  unfold Player.getTotalItemAmount
  rw [foldl_add_eq_sum (fun s => s.amount) inv 0, zero_add]

theorem sum_map_set (f : Stack → Int) (l : List Stack) (i : Nat) (s' : Stack)
    (hi : i < l.length) :
    ((l.set i s').map f).sum = (l.map f).sum - f l[i] + f s' := by
  induction l generalizing i with
  | nil => simp at hi
  | cons a l ih =>
    cases i with
    | zero => simp; ring
    | succ n =>
      have hn : n < l.length := by simpa using hi
      simp only [List.set_cons_succ, List.map_cons, List.sum_cons, ih n hn,
        List.getElem_cons_succ]
      ring

theorem eraseIdx_set_same {α : Type} (l : List α) (i : Nat) (a : α) :
    (l.set i a).eraseIdx i = l.eraseIdx i := by
  induction l generalizing i with
  | nil => simp
  | cons x l ih =>
    cases i with
    | zero => simp
    | succ n => simp [List.set_cons_succ, List.eraseIdx_cons_succ, ih]

theorem lookup_mem {reg : Registry} {key : String} {d : ItemDef}
    (h : reg.lookup key = some d) : (key, d) ∈ reg := by
  induction reg with
  | nil => simp [List.lookup] at h
  | cons kv reg ih =>
    cases kv with
    | mk k v =>
      rw [List.lookup] at h
      cases hkv : key == k with
      | true =>
        rw [hkv] at h
        simp only [Option.some.injEq] at h
        have hk : key = k := by simpa using hkv
        subst hk
        subst h
        exact List.mem_cons_self _ _
      | false =>
        rw [hkv] at h
        exact List.mem_cons_of_mem _ (ih h)

theorem bumpAmountAt_eq_set {inv : List Stack} {i : Nat} (hi : i < inv.length) (a : Int) :
    Player.bumpAmountAt inv i a
      = inv.set i { inv[i] with amount := inv[i].amount + a } := by
  unfold Player.bumpAmountAt
  rw [List.getElem?_eq_getElem hi]

/-- Claim C1: for every inventory, every key registered in the ItemRegistry,
every positive integer amount, and every data payload, a successful `give`
returns true, increases `amountOfWithData(key, data)` by exactly `amount`,
and increases `totalAmount()` by exactly `amount`; if a stack with
structurally equal (key, data) already exists its amount is incremented in
place, otherwise a new stack `{key, amount, data}` is appended at the end. -/
theorem giveItem_success_spec (reg : Registry) (actor : Nat) (inv : List Stack)
    (itemKey : String) (amount : Rat) (data : JSData)
    (hk : InventoryScript.hasItem reg itemKey = true)
    (hden : amount.den = 1) (hpos : 0 < amount) :
    (Player.giveItem reg actor inv itemKey amount data).2.2 = true ∧
    Player.getItemAmountWithData
        (Player.giveItem reg actor inv itemKey amount data).1 itemKey data
      = Player.getItemAmountWithData inv itemKey data + amount.num ∧
    Player.getTotalItemAmount (Player.giveItem reg actor inv itemKey amount data).1
      = Player.getTotalItemAmount inv + amount.num ∧
    ((∃ i, ∃ hi : i < inv.length,
        inv.findIdx? (fun s => s.key == itemKey && s.data == data) = some i ∧
        (Player.giveItem reg actor inv itemKey amount data).1
          = inv.set i { inv[i] with amount := inv[i].amount + amount.num }) ∨
      ((∀ s ∈ inv, ¬(s.key = itemKey ∧ s.data = data)) ∧
        (Player.giveItem reg actor inv itemKey amount data).1
          = inv ++ [{ key := itemKey, amount := amount.num, data := data }])) := by
  have hcond : InventoryScript.hasItem reg itemKey = true ∧ amount.den = 1 ∧ 0 < amount :=
    ⟨hk, hden, hpos⟩
  cases hfind : inv.findIdx? (fun s => s.key == itemKey && s.data == data) with
  | none =>
    have hres : (Player.giveItem reg actor inv itemKey amount data).1
        = inv ++ [{ key := itemKey, amount := amount.num, data := data }] := by
      simp only [Player.giveItem, Player.getItemIndexWithData, hfind, if_pos hcond]
      simp
    have hret : (Player.giveItem reg actor inv itemKey amount data).2.2 = true := by
      simp only [Player.giveItem, if_pos hcond]
    have hnone := List.findIdx?_eq_none_iff.mp hfind
    refine ⟨hret, ?_, ?_, Or.inr ⟨?_, hres⟩⟩
    · rw [hres, getItemAmountWithData_eq_sum, getItemAmountWithData_eq_sum,
        List.map_append, List.sum_append]
      simp
    · rw [hres, getTotalItemAmount_eq_sum, getTotalItemAmount_eq_sum,
        List.map_append, List.sum_append]
      simp
    · intro s hs hcontra
      have := hnone s hs
      simp [hcontra.1, hcontra.2] at this
  | some i =>
    obtain ⟨hi, hp, -⟩ := List.findIdx?_eq_some_iff_getElem.mp hfind
    have hne : (i : Int) ≠ -1 := by omega
    have hres : (Player.giveItem reg actor inv itemKey amount data).1
        = inv.set i { inv[i] with amount := inv[i].amount + amount.num } := by
      simp only [Player.giveItem, Player.getItemIndexWithData, hfind, if_pos hcond,
        if_pos hne, Int.toNat_natCast]
      exact bumpAmountAt_eq_set hi amount.num
    have hret : (Player.giveItem reg actor inv itemKey amount data).2.2 = true := by
      simp only [Player.giveItem, if_pos hcond]
    have hkey : (inv[i].key == itemKey && inv[i].data == data) = true := hp
    refine ⟨hret, ?_, ?_, Or.inl ⟨i, hi, rfl, hres⟩⟩
    · rw [hres, getItemAmountWithData_eq_sum, getItemAmountWithData_eq_sum,
        sum_map_set _ _ _ _ hi]
      simp [hkey]
      ring
    · rw [hres, getTotalItemAmount_eq_sum, getTotalItemAmount_eq_sum,
        sum_map_set _ _ _ _ hi]
      ring

/-- Witness for C1: giving 2 medkits to the sample inventory succeeds and
raises the matching amount and the total by 2. -/
theorem giveItem_success_spec_witness :
    (Player.giveItem demoReg 0 demoInv "item_medkit" 2 JSData.undef).2.2 = true ∧
    Player.getItemAmountWithData
        (Player.giveItem demoReg 0 demoInv "item_medkit" 2 JSData.undef).1
        "item_medkit" JSData.undef
      = Player.getItemAmountWithData demoInv "item_medkit" JSData.undef + 2 := by
  have h := giveItem_success_spec demoReg 0 demoInv "item_medkit" 2 JSData.undef
    (by decide) (by decide) (by decide)
  exact ⟨h.1, h.2.1⟩

/-- Claim C2: for every inventory, every valid index holding a stack, and
every positive integer amount, `removeAt(i, amount)` decrements that stack's
amount by `amount`, emits `itemRemoved` with (actor, index, key,
amount-removed, data), and, exactly when the resulting amount is below 1,
removes the stack from the sequence (shifting subsequent indices) and
additionally emits `itemRemovedCompletely` with (actor, key, data); it
returns true; all other stacks are unchanged. -/
theorem removeItem_spec (actor : Nat) (inv : List Stack) (itemIdx amount : Rat)
    (hden : itemIdx.den = 1) (hnn : 0 ≤ itemIdx.num)
    (hlt : itemIdx.num.toNat < inv.length)
    (haden : amount.den = 1) (hapos : 0 < amount) :
    (Player.removeItem actor inv itemIdx amount).2.2 = true ∧
    (inv[itemIdx.num.toNat].amount - amount.num < 1 →
      (Player.removeItem actor inv itemIdx amount).1 = inv.eraseIdx itemIdx.num.toNat ∧
      (Player.removeItem actor inv itemIdx amount).2.1
        = [Event.itemRemoved actor itemIdx.num inv[itemIdx.num.toNat].key amount.num
             inv[itemIdx.num.toNat].data,
           Event.itemRemovedCompletely actor inv[itemIdx.num.toNat].key
             inv[itemIdx.num.toNat].data]) ∧
    (1 ≤ inv[itemIdx.num.toNat].amount - amount.num →
      (Player.removeItem actor inv itemIdx amount).1
        = inv.set itemIdx.num.toNat
            { inv[itemIdx.num.toNat] with
                amount := inv[itemIdx.num.toNat].amount - amount.num } ∧
      (Player.removeItem actor inv itemIdx amount).2.1
        = [Event.itemRemoved actor itemIdx.num inv[itemIdx.num.toNat].key amount.num
             inv[itemIdx.num.toNat].data] ∧
      (∀ j, j ≠ itemIdx.num.toNat →
        (Player.removeItem actor inv itemIdx amount).1[j]? = inv[j]?)) := by
  have hcond : itemIdx.den = 1 ∧ 0 ≤ itemIdx.num ∧ itemIdx.num.toNat < inv.length
      ∧ amount.den = 1 ∧ 0 < amount := ⟨hden, hnn, hlt, haden, hapos⟩
  have hbump := bumpAmountAt_eq_set hlt (-amount.num)
  simp only [Player.removeItem, dif_pos hcond, List.get_eq_getElem, hbump]
  refine ⟨?_, ?_, ?_⟩
  · split <;> rfl
  · intro hsmall
    rw [if_pos hsmall, eraseIdx_set_same]
    exact ⟨rfl, rfl⟩
  · intro hbig
    rw [if_neg (by omega)]
    refine ⟨by rw [Int.sub_eq_add_neg], rfl, ?_⟩
    intro j hj
    rw [List.getElem?_set_ne (Ne.symm hj)]

/-- Witness for C2: removing 1 of 2 medkits from the sample inventory keeps
the stack with amount 1 and emits only `itemRemoved`. -/
theorem removeItem_spec_witness :
    (Player.removeItem 0 demoInv 0 1).2.2 = true ∧
    (Player.removeItem 0 demoInv 0 1).1
      = [{ key := "item_medkit", amount := 1, data := JSData.undef },
         { key := "item_badge", amount := 1, data := JSData.str "Gold" }] ∧
    (Player.removeItem 0 demoInv 0 1).2.1
      = [Event.itemRemoved 0 0 "item_medkit" 1 JSData.undef] := by
  have h := removeItem_spec 0 demoInv 0 1
    (by decide) (by decide) (by decide) (by decide) (by decide)
  have h2 := h.2.2 (by decide)
  exact ⟨h.1, by rw [h2.1]; rfl, by rw [h2.2.1]; rfl⟩

/-- Claim C4: for every inventory, key, amount, and data, if the key is not
registered in the ItemRegistry, or the amount is not a positive integer
(non-integer, zero, or negative), then `give` returns false and the
inventory sequence is completely unchanged and no event is emitted. -/
theorem giveItem_failure_spec (reg : Registry) (actor : Nat) (inv : List Stack)
    (itemKey : String) (amount : Rat) (data : JSData)
    (h : InventoryScript.hasItem reg itemKey = false ∨ amount.den ≠ 1 ∨ ¬ 0 < amount) :
    Player.giveItem reg actor inv itemKey amount data = (inv, [], false) := by
  have hn : ¬ (InventoryScript.hasItem reg itemKey = true ∧ amount.den = 1 ∧ 0 < amount) := by
    rintro ⟨h1, h2, h3⟩
    rcases h with h | h | h
    · rw [h] at h1; cases h1
    · exact h h2
    · exact h h3
  unfold Player.giveItem
  rw [if_neg hn]

/-- Witness for C4: giving an unregistered key fails and changes nothing. -/
theorem giveItem_failure_spec_witness :
    Player.giveItem demoReg 0 demoInv "item_gun" 5 JSData.undef = (demoInv, [], false) :=
  giveItem_failure_spec demoReg 0 demoInv "item_gun" 5 JSData.undef (Or.inl (by decide))

/-- Claim C8: replacing the inventory and then replacing it again with the
old sequence reported by the first call restores the original inventory
exactly, by value. -/
theorem setInventory_roundtrip (actor : Nat) (inv seq oldSeq newSeq : List Stack)
    (h : (Player.setInventory actor inv (JSArg.arr seq)).2.1
        = [Event.inventoryReplaced actor oldSeq newSeq]) :
    (Player.setInventory actor (Player.setInventory actor inv (JSArg.arr seq)).1
        (JSArg.arr oldSeq)).1 = inv := by
  simp only [Player.setInventory, List.cons.injEq, Event.inventoryReplaced.injEq,
    and_true, true_and] at h ⊢
  exact h.1.symm

/-- Witness for C8: replacing the sample inventory with the empty one and
then with the reported old sequence restores the sample inventory. -/
theorem setInventory_roundtrip_witness :
    (Player.setInventory 0 (Player.setInventory 0 demoInv (JSArg.arr [])).1
        (JSArg.arr demoInv)).1 = demoInv :=
  setInventory_roundtrip 0 demoInv [] demoInv [] rfl

/-- Claim C6: for every inventory and every integer index at which a stack
exists, `useAt(index)` returns true, emits `itemUsed` with
(actor, index, key, data), and by itself leaves every stack unchanged when
the item's definition has no `onUse` hook; if no stack exists at the index,
`useAt` returns false with no side effects. -/
theorem useItem_no_hook_spec (reg : Registry) (actor : Nat) (inv : List Stack)
    (itemIdx : Rat) :
    (∀ (hden : itemIdx.den = 1) (hnn : 0 ≤ itemIdx.num)
        (hlt : itemIdx.num.toNat < inv.length),
      (InventoryScript.getItem reg inv[itemIdx.num.toNat].key).bind
          (fun d => d.onUse) = none →
      Player.useItem reg actor inv itemIdx
        = (inv, [Event.itemUsed actor itemIdx.num inv[itemIdx.num.toNat].key
            inv[itemIdx.num.toNat].data], true)) ∧
    (¬ (itemIdx.den = 1 ∧ 0 ≤ itemIdx.num ∧ itemIdx.num.toNat < inv.length) →
      Player.useItem reg actor inv itemIdx = (inv, [], false)) := by
  constructor
  · intro hden hnn hlt hnohook
    have hcond : itemIdx.den = 1 ∧ 0 ≤ itemIdx.num ∧ itemIdx.num.toNat < inv.length :=
      ⟨hden, hnn, hlt⟩
    simp only [Player.useItem, dif_pos hcond, List.get_eq_getElem, hnohook]
  · intro hn
    simp only [Player.useItem, dif_neg hn]

/-- Witness for C6: using the hook-free medkit at index 0 of the sample
inventory succeeds, emits `itemUsed`, and leaves the inventory unchanged;
using index 7 (no stack there) fails with no side effects. -/
theorem useItem_no_hook_spec_witness :
    Player.useItem demoReg 0 demoInv 0
      = (demoInv, [Event.itemUsed 0 0 "item_medkit" JSData.undef], true) ∧
    Player.useItem demoReg 0 demoInv 7 = (demoInv, [], false) := by
  constructor
  · exact (useItem_no_hook_spec demoReg 0 demoInv 0).1 (by decide) (by decide)
      (by decide) rfl
  · exact (useItem_no_hook_spec demoReg 0 demoInv 7).2 (by decide)

/-- Claim C9 (implicit): for every inventory and every integer index at
which a stack exists, `useAt(index)` returns true and emits `itemUsed` even
when the stack's key has no registered definition in the ItemRegistry — the
operation does not validate the stack's key against the registry. -/
theorem useItem_unregistered_spec (reg : Registry) (actor : Nat) (inv : List Stack)
    (itemIdx : Rat)
    (hden : itemIdx.den = 1) (hnn : 0 ≤ itemIdx.num)
    (hlt : itemIdx.num.toNat < inv.length)
    (hunreg : InventoryScript.hasItem reg inv[itemIdx.num.toNat].key = false) :
    Player.useItem reg actor inv itemIdx
      = (inv, [Event.itemUsed actor itemIdx.num inv[itemIdx.num.toNat].key
          inv[itemIdx.num.toNat].data], true) := by
  have hcond : itemIdx.den = 1 ∧ 0 ≤ itemIdx.num ∧ itemIdx.num.toNat < inv.length :=
    ⟨hden, hnn, hlt⟩
  have hl : reg.lookup inv[itemIdx.num.toNat].key = none := by
    cases hc : reg.lookup inv[itemIdx.num.toNat].key with
    | none => rfl
    | some d =>
      unfold InventoryScript.hasItem at hunreg
      rw [hc] at hunreg
      cases hunreg
  have hnohook : (InventoryScript.getItem reg inv[itemIdx.num.toNat].key).bind
      (fun d => d.onUse) = none := by
    unfold InventoryScript.getItem
    rw [hl]
    rfl
  simp only [Player.useItem, dif_pos hcond, List.get_eq_getElem, hnohook]

/-- Witness for C9: with an empty registry, using the medkit stack at
index 0 still succeeds and emits `itemUsed`. -/
theorem useItem_unregistered_spec_witness :
    Player.useItem [] 0 demoInv 0
      = (demoInv, [Event.itemUsed 0 0 "item_medkit" JSData.undef], true) :=
  useItem_unregistered_spec [] 0 demoInv 0 (by decide) (by decide) (by decide) rfl

/-- Claim C7: for every key and data, if the key is unregistered,
`displayName` returns the sentinel `"Invalid Item"` and
`displayDescription` returns the empty string; if the key is registered,
`displayName` returns `nameFunc(data)` when a `nameFunc` is present and the
static name otherwise, and analogously for `displayDescription`. -/
theorem display_text_spec (reg : Registry) (key : String) (data : JSData) :
    (InventoryScript.hasItem reg key = false →
      InventoryScript.getItemName reg key data = "Invalid Item" ∧
      InventoryScript.getItemDescription reg key data = "") ∧
    (∀ d, reg.lookup key = some d →
      (InventoryScript.getItemName reg key data
        = match d.nameFunc with
          | some f => f data
          | none => d.name) ∧
      (InventoryScript.getItemDescription reg key data
        = match d.descFunc with
          | some f => f data
          | none => d.description)) := by
  constructor
  · intro h
    have hl : reg.lookup key = none := by
      cases hc : reg.lookup key with
      | none => rfl
      | some d =>
        unfold InventoryScript.hasItem at h
        rw [hc] at h
        cases h
    constructor
    · unfold InventoryScript.getItemName
      rw [hl]
    · unfold InventoryScript.getItemDescription
      rw [hl]
  · intro d hd
    constructor
    · unfold InventoryScript.getItemName
      rw [hd]
    · unfold InventoryScript.getItemDescription
      rw [hd]

/-- Witness for C7: an unregistered key yields the sentinel name and the
empty description; the badge definition's formatters are invoked with the
stack data. -/
theorem display_text_spec_witness :
    (InventoryScript.getItemName demoReg "item_unknown" JSData.undef = "Invalid Item" ∧
      InventoryScript.getItemDescription demoReg "item_unknown" JSData.undef = "") ∧
    (InventoryScript.getItemName demoReg "item_badge" (JSData.str "Gold") = "Gold Badge" ∧
      InventoryScript.getItemDescription demoReg "item_badge" (JSData.str "Gold")
        = "Engraved") := by
  constructor
  · exact (display_text_spec demoReg "item_unknown" JSData.undef).1 (by decide)
  · exact (display_text_spec demoReg "item_badge" (JSData.str "Gold")).2 badgeDef rfl

/-- Claim C5: a second register call with an already-registered key returns
a rejection (null), leaves the registry (hence the previously stored
definition) unchanged, and emits no second `itemDefined` event; likewise
register with a non-string or empty key, non-string or empty name, or
non-string description returns a rejection and leaves the registry
unchanged. -/
theorem addItem_reject_spec (reg : Registry) (key name description : JSVal)
    (onUse : Option Hook) (nameFunc descFunc : Option (JSData → String))
    (h : (∃ k, key = JSVal.str k ∧ (reg.lookup k).isSome = true)
        ∨ InventoryScript.addItemValid reg key name description = false) :
    InventoryScript.addItem reg key name description onUse nameFunc descFunc
      = (reg, [], none) := by
  cases key with
  | str k =>
    by_cases hk : k.length < 1
    · simp only [InventoryScript.addItem, if_pos hk]
    · cases name with
      | str n =>
        by_cases hn : n.length < 1
        · simp only [InventoryScript.addItem, if_neg hk, if_pos hn]
        · cases description with
          | str d =>
            have hdup : (reg.lookup k).isSome = true := by
              rcases h with ⟨k', hk', hs⟩ | hval
              · injection hk' with hkk
                subst hkk
                exact hs
              · unfold InventoryScript.addItemValid at hval
                simp only [Bool.and_eq_false_iff, Bool.not_eq_false'] at hval
                rcases hval with (hval | hval) | hval
                · exact absurd (by simpa using hval) hk
                · exact absurd (by simpa using hval) hn
                · simpa using hval
            simp only [InventoryScript.addItem, if_neg hk, if_neg hn, if_pos hdup]
          | num q => simp only [InventoryScript.addItem, if_neg hk, if_neg hn]
          | undef => simp only [InventoryScript.addItem, if_neg hk, if_neg hn]
          | boolean b => simp only [InventoryScript.addItem, if_neg hk, if_neg hn]
      | num q => simp only [InventoryScript.addItem, if_neg hk]
      | undef => simp only [InventoryScript.addItem, if_neg hk]
      | boolean b => simp only [InventoryScript.addItem, if_neg hk]
  | num q => simp only [InventoryScript.addItem]
  | undef => simp only [InventoryScript.addItem]
  | boolean b => simp only [InventoryScript.addItem]

/-- Witness for C5: registering the medkit key a second time is rejected
and leaves the sample registry unchanged, emitting nothing. -/
theorem addItem_reject_spec_witness :
    InventoryScript.addItem demoReg (JSVal.str "item_medkit") (JSVal.str "Medkit II")
      (JSVal.str "duplicate") none none none = (demoReg, [], none) :=
  addItem_reject_spec demoReg (JSVal.str "item_medkit") (JSVal.str "Medkit II")
    (JSVal.str "duplicate") none none none
    (Or.inl ⟨"item_medkit", rfl, by decide⟩)

theorem giveItem_result_merge {reg : Registry} {actor : Nat} {inv : List Stack}
    {itemKey : String} {amount : Rat} {data : JSData} {i : Nat}
    (hcond : InventoryScript.hasItem reg itemKey = true ∧ amount.den = 1 ∧ 0 < amount)
    (hfind : inv.findIdx? (fun s => s.key == itemKey && s.data == data) = some i)
    (hi : i < inv.length) :
    (Player.giveItem reg actor inv itemKey amount data).1
      = inv.set i { inv[i] with amount := inv[i].amount + amount.num } := by
  have hne : (i : Int) ≠ -1 := by omega
  simp only [Player.giveItem, Player.getItemIndexWithData, hfind, if_pos hcond,
    if_pos hne, Int.toNat_natCast]
  exact bumpAmountAt_eq_set hi amount.num

theorem giveItem_result_append {reg : Registry} {actor : Nat} {inv : List Stack}
    {itemKey : String} {amount : Rat} {data : JSData}
    (hcond : InventoryScript.hasItem reg itemKey = true ∧ amount.den = 1 ∧ 0 < amount)
    (hfind : inv.findIdx? (fun s => s.key == itemKey && s.data == data) = none) :
    (Player.giveItem reg actor inv itemKey amount data).1
      = inv ++ [{ key := itemKey, amount := amount.num, data := data }] := by
  simp only [Player.giveItem, Player.getItemIndexWithData, hfind, if_pos hcond]
  simp

theorem giveItem_result_fail {reg : Registry} {actor : Nat} {inv : List Stack}
    {itemKey : String} {amount : Rat} {data : JSData}
    (hcond : ¬ (InventoryScript.hasItem reg itemKey = true ∧ amount.den = 1 ∧ 0 < amount)) :
    (Player.giveItem reg actor inv itemKey amount data).1 = inv := by
  simp only [Player.giveItem, if_neg hcond]

theorem set_self_getElem {α : Type} (l : List α) (i : Nat) (hi : i < l.length) :
    l.set i l[i] = l := by
  induction l generalizing i with
  | nil => simp at hi
  | cons a l ih =>
    cases i with
    | zero => rfl
    | succ n =>
      have hn : n < l.length := by simpa using hi
      simp [ih n hn]

/-- Claim C10 (implicit): for every inventory in which no two stacks have
both equal key and structurally equal data, every give preserves that
property — give merges into the first matching (key, data) stack when one
exists and appends a new stack only when none exists, so give never creates
a second stack for the same (key, data) pair. -/
theorem giveItem_noDup_preserved (reg : Registry) (actor : Nat) (inv : List Stack)
    (itemKey : String) (amount : Rat) (data : JSData)
    (h : noDupStacks inv) :
    noDupStacks (Player.giveItem reg actor inv itemKey amount data).1 := by
  by_cases hcond : InventoryScript.hasItem reg itemKey = true ∧ amount.den = 1 ∧ 0 < amount
  · cases hfind : inv.findIdx? (fun s => s.key == itemKey && s.data == data) with
    | some i =>
      obtain ⟨hi, -, -⟩ := List.findIdx?_eq_some_iff_getElem.mp hfind
      have him : i < (inv.map stackId).length := by simpa using hi
      unfold noDupStacks at h ⊢
      rw [giveItem_result_merge hcond hfind hi, List.map_set]
      have hv : stackId { inv[i] with amount := inv[i].amount + amount.num }
          = (inv.map stackId)[i] := by simp [stackId]
      rw [hv, set_self_getElem _ _ him]
      exact h
    | none =>
      have hnone := List.findIdx?_eq_none_iff.mp hfind
      unfold noDupStacks at h ⊢
      rw [giveItem_result_append hcond hfind, List.map_append, List.nodup_append]
      refine ⟨h, by simp, ?_⟩
      intro x hx hx2
      simp only [List.map_cons, List.map_nil, List.mem_singleton] at hx2
      obtain ⟨s, hs, rfl⟩ := List.mem_map.mp hx
      have hfalse := hnone s hs
      have hk : s.key = itemKey := congrArg Prod.fst hx2
      have hd : s.data = data := congrArg Prod.snd hx2
      rw [hk, hd] at hfalse
      simp at hfalse
  · rw [giveItem_result_fail hcond]
    exact h

/-- Witness for C10: the duplicate-free sample inventory stays
duplicate-free after a merging give. -/
theorem giveItem_noDup_preserved_witness :
    noDupStacks (Player.giveItem demoReg 0 demoInv "item_medkit" 2 JSData.undef).1 :=
  giveItem_noDup_preserved demoReg 0 demoInv "item_medkit" 2 JSData.undef (by decide)

theorem goodInv_giveItem (reg : Registry) (actor : Nat) (inv : List Stack)
    (itemKey : String) (amount : Rat) (data : JSData) (h : goodInv inv) :
    goodInv (Player.giveItem reg actor inv itemKey amount data).1 := by
  by_cases hcond : InventoryScript.hasItem reg itemKey = true ∧ amount.den = 1 ∧ 0 < amount
  · have hnum : 1 ≤ amount.num := by
      have := Rat.num_pos.mpr hcond.2.2
      omega
    cases hfind : inv.findIdx? (fun s => s.key == itemKey && s.data == data) with
    | some i =>
      obtain ⟨hi, -, -⟩ := List.findIdx?_eq_some_iff_getElem.mp hfind
      rw [giveItem_result_merge hcond hfind hi]
      intro s hs
      rcases List.mem_or_eq_of_mem_set hs with hs' | rfl
      · exact h s hs'
      · have hmem := h inv[i] (List.getElem_mem hi)
        show 1 ≤ inv[i].amount + amount.num
        omega
    | none =>
      rw [giveItem_result_append hcond hfind]
      intro s hs
      rcases List.mem_append.mp hs with hs' | hs'
      · exact h s hs'
      · simp only [List.mem_singleton] at hs'
        subst hs'
        exact hnum
  · rw [giveItem_result_fail hcond]
    exact h

theorem goodInv_removeItem (actor : Nat) (inv : List Stack) (itemIdx amount : Rat)
    (h : goodInv inv) :
    goodInv (Player.removeItem actor inv itemIdx amount).1 := by
  by_cases hcond : itemIdx.den = 1 ∧ 0 ≤ itemIdx.num ∧ itemIdx.num.toNat < inv.length
      ∧ amount.den = 1 ∧ 0 < amount
  · have hlt := hcond.2.2.1
    have hbump := bumpAmountAt_eq_set hlt (-amount.num)
    simp only [Player.removeItem, dif_pos hcond, List.get_eq_getElem, hbump]
    split
    · rw [eraseIdx_set_same]
      intro s hs
      exact h s (List.mem_of_mem_eraseIdx hs)
    · next hbig =>
        intro s hs
        rcases List.mem_or_eq_of_mem_set hs with hs' | rfl
        · exact h s hs'
        · show 1 ≤ inv[itemIdx.num.toNat].amount + -amount.num
          omega
  · simp only [Player.removeItem, dif_neg hcond]
    exact h

theorem goodInv_useItem (reg : Registry) (actor : Nat) (inv : List Stack) (itemIdx : Rat)
    (hreg : hooksPreserveGood reg) (h : goodInv inv) :
    goodInv (Player.useItem reg actor inv itemIdx).1 := by
  by_cases hcond : itemIdx.den = 1 ∧ 0 ≤ itemIdx.num ∧ itemIdx.num.toNat < inv.length
  · simp only [Player.useItem, dif_pos hcond, List.get_eq_getElem]
    cases hm : (InventoryScript.getItem reg inv[itemIdx.num.toNat].key).bind
        (fun d => d.onUse) with
    | none =>
      simp only [hm]
      exact h
    | some hook =>
      simp only [hm]
      obtain ⟨d, hd, hdu⟩ := Option.bind_eq_some.mp hm
      have hmem : (inv[itemIdx.num.toNat].key, d) ∈ reg :=
        lookup_mem (by simpa [InventoryScript.getItem] using hd)
      exact hreg _ hmem hook hdu actor itemIdx.num _ _ inv h
  · simp only [Player.useItem, dif_neg hcond]
    exact h

theorem goodInv_runOps (reg : Registry) (actor : Nat) (hreg : hooksPreserveGood reg) :
    ∀ (ops : List Op) (inv : List Stack), replacementsGood ops → goodInv inv →
      goodInv (runOps reg actor ops inv) := by
  intro ops
  induction ops with
  | nil =>
    intro inv _ h
    exact h
  | cons op rest ih =>
    intro inv hrep h
    have hrep' : replacementsGood rest := by
      intro o ho xs hxs
      exact hrep o (List.mem_cons_of_mem _ ho) xs hxs
    have hstep : goodInv (runOp reg actor inv op) := by
      cases op with
      | give k a d => exact goodInv_giveItem reg actor inv k a d h
      | useAt i => exact goodInv_useItem reg actor inv i hreg h
      | removeAt i a => exact goodInv_removeItem actor inv i a h
      | replace arg =>
        cases arg with
        | arr xs =>
          have := hrep _ (List.mem_cons_self _ _) xs rfl
          simpa [runOp, Player.setInventory] using this
        | notArray => simpa [runOp, Player.setInventory] using h
    exact ih (runOp reg actor inv op) hrep' hstep

/-- Counterexample to claim C3 as stated: replaceInventory is one of the
public operations and performs no validation of stack amounts, so an
inventory holding a stack with amount 0 is observable after a single public
operation applied to the empty inventory. -/
theorem amount_invariant_counterexample :
    ¬ goodInv (runOps [] 0
      [Op.replace (JSArg.arr [{ key := "item_medkit", amount := 0, data := JSData.undef }])]
      []) := by
  decide

/-- Claim C3 (amended): every stack of every inventory reachable from the
empty inventory by sequences of the public operations give, useAt, removeAt
and replaceInventory has amount ≥ 1, provided every `onUse` hook stored in
the registry preserves the positive-amount property and every sequence
passed to replaceInventory itself satisfies it (replaceInventory performs
no amount validation, as the counterexample shows). -/
theorem amount_positive_invariant (reg : Registry) (actor : Nat) (ops : List Op)
    (hreg : hooksPreserveGood reg) (hrep : replacementsGood ops) :
    goodInv (runOps reg actor ops []) :=
  goodInv_runOps reg actor hreg ops [] hrep (by intro s hs; cases hs)

/-- Witness for C3 (amended): the hook-free sample registry and the sample
operation sequence yield an inventory whose stacks all have amount ≥ 1. -/
theorem amount_positive_invariant_witness :
    goodInv (runOps demoReg 0 demoOps []) := by
  apply amount_positive_invariant
  · intro kv hkv hook hhook
    simp only [demoReg, List.mem_cons, List.not_mem_nil, or_false] at hkv
    rcases hkv with rfl | rfl
    · simp [medkitDef] at hhook
    · simp [badgeDef] at hhook
  · intro op hop xs hxs
    simp only [demoOps, List.mem_cons, List.not_mem_nil, or_false] at hop
    rcases hop with rfl | rfl | rfl | rfl
    · cases hxs
    · cases hxs
    · cases hxs
    · injection hxs with harg
      injection harg with hxs'
      subst hxs'
      decide
